import Mathlib

/-!
Verification of the MusicXML structural parser (`pysheetmusic/parse.py`).

The parser is shallowly embedded: XML documents become the inductive
`XMLNode`, Python `Fraction` values become `ℚ`, Python `float` values on
layout coordinates are modelled as exact rationals (every coordinate text
occurring in a score is a decimal numeral), and Python exceptions become the
`Fault` error type threaded through `Except`.  The sheet-model aggregates
(`Sheet`/`Page`/`Measure`/value objects) live in the external `sheet` module,
which is not part of the repository snapshot; the parts of their behaviour the
parser relies on are modelled from the spec and marked as such.
-/

set_option autoImplicit false

namespace PySheetMusic

/-- An XML element: tag, attributes, text content, child elements.
Mirrors the lxml element interface used by the parser. -/
inductive XMLNode where
  | mk (tag : String) (attrs : List (String × String)) (text : Option String)
      (children : List XMLNode)

def XMLNode.tag : XMLNode → String
  | .mk t _ _ _ => t

def XMLNode.attrs : XMLNode → List (String × String)
  | .mk _ a _ _ => a

def XMLNode.text : XMLNode → Option String
  | .mk _ _ x _ => x

def XMLNode.children : XMLNode → List XMLNode
  | .mk _ _ _ c => c

/-- First element of a list of children carrying the given tag
(`lxml` `Element.find` with a plain tag path). -/
def findIn (t : String) : List XMLNode → Option XMLNode
  | [] => none
  | c :: rest => if c.tag = t then some c else findIn t rest

/-- `node.find(tag)` for a single-step tag path. -/
def XMLNode.find (n : XMLNode) (t : String) : Option XMLNode :=
  findIn t n.children

/-- `node.find('a/b/...')`: walk a slash-separated path one tag at a time. -/
def findPath (n : XMLNode) : List String → Option XMLNode
  | [] => some n
  | t :: rest =>
    match n.find t with
    | none => none
    | some c => findPath c rest

/-- `node.attrib[k]` / `node.attrib.get(k)`: first binding of the key. -/
def lookupAttr (n : XMLNode) (k : String) : Option String :=
  match n.attrs.find? (fun p => p.1 = k) with
  | none => none
  | some p => some p.2

/-- `node.attrib.get(k, dflt)`. -/
def attrD (n : XMLNode) (k dflt : String) : String :=
  match lookupAttr n k with
  | none => dflt
  | some v => v

/-- Value of a decimal digit character, `none` for a non-digit. -/
def digitVal? (c : Char) : Option ℕ :=
  if '0' ≤ c ∧ c ≤ '9' then some (c.toNat - '0'.toNat) else none

/-- Read a digit string left to right, accumulating the value. -/
def natFromDigitsAux : List Char → ℕ → Option ℕ
  | [], acc => some acc
  | c :: rest, acc =>
    match digitVal? c with
    | none => none
    | some d => natFromDigitsAux rest (acc * 10 + d)

/-- A non-empty all-digit string as a natural number. -/
def natFromDigits? : List Char → Option ℕ
  | [] => none
  | c :: rest => natFromDigitsAux (c :: rest) 0

/-- Split a character list on the dot character. -/
def splitOnDot : List Char → List (List Char)
  | [] => [[]]
  | c :: rest =>
    let r := splitOnDot rest
    if c = '.' then [] :: r
    else
      match r with
      | [] => [[c]]
      | g :: gs => (c :: g) :: gs

/-- Parse a decimal numeral (optional minus sign, digits, optional fractional
part) into an exact rational.  Models `float(text)` / `Fraction(text)` on the
numeric texts appearing in MusicXML documents; `none` models `ValueError`. -/
def parseDecimal? (s : String) : Option ℚ :=
  let cs := s.data
  let sgn : ℚ := if cs.head? = some '-' then -1 else 1
  let cs' := if cs.head? = some '-' then cs.tail else cs
  match splitOnDot cs' with
  | [a] =>
    match natFromDigits? a with
    | none => none
    | some n => some (sgn * n)
  | [a, b] =>
    match natFromDigits? a, natFromDigits? b with
    | some n, some f => some (sgn * ((n : ℚ) + (f : ℚ) / ((10 : ℚ) ^ b.length)))
    | _, _ => none
  | _ => none

/-- `int(text)`: optional minus sign and digits. -/
def parseInt? (s : String) : Option ℤ :=
  match s.data with
  | '-' :: rest =>
    match natFromDigits? rest with
    | none => none
    | some n => some (-(n : ℤ))
  | cs =>
    match natFromDigits? cs with
    | none => none
    | some n => some (n : ℤ)

/-- ASCII lowering of one character (`str.lower` on the texts at hand). -/
def lowerChar (c : Char) : Char :=
  if 'A' ≤ c ∧ c ≤ 'Z' then Char.ofNat (c.toNat + 32) else c

/-- `s.lower()` on ASCII strings. -/
def toLowerStr (s : String) : String :=
  ⟨s.data.map lowerChar⟩

/-- Whether `p` is a prefix of `s`, character by character. -/
def prefixOf : List Char → List Char → Bool
  | [], _ => true
  | _ :: _, [] => false
  | a :: as, b :: bs => a = b && prefixOf as bs

/-- `name.startswith(p)`. -/
def startsWithStr (s p : String) : Bool :=
  prefixOf p.data s.data

/-- `name.endswith(p)`. -/
def endsWithStr (s p : String) : Bool :=
  prefixOf p.data.reverse s.data.reverse

/-- Python exceptions the parser can raise while handling a measure.
`unboundLocal` models reading a local variable no branch assigned. -/
inductive Fault where
  | keyError
  | attributeError
  | valueError
  | typeError
  | zeroDivisionError
  | unboundLocal
deriving DecidableEq

/-- Value object `S.Stem(node)`: wraps the `stem` element. -/
structure Stem where
  node : XMLNode

/-- A beam under construction or completed: an ordered stem sequence.
`uid` is a ghost field modelling Python object identity (each `S.Beam()`
call yields a distinct object); it does not change any computation. -/
structure Beam where
  uid : ℕ
  stems : List Stem

/-- The two note variants the parser builds (`S.PitchedNote` / `S.Rest`).
The pitch and accidental value objects are kept as their source elements. -/
inductive Note where
  | pitched (pos : Option (ℚ × ℚ)) (duration : ℚ) (dots : ℕ) (typ : Option String)
      (pitch : XMLNode) (stem : Option Stem) (accidental : Option XMLNode)
  | rest (pos : Option (ℚ × ℚ)) (duration : ℚ) (dots : ℕ) (typ : Option String)

/-- Modelled from the spec: margins value object (`S.Margins`) from the
external sheet module; "absent ⇒ a zero/default margins value". -/
structure Margins where
  left : ℚ
  top : ℚ
  right : ℚ
  bottom : ℚ

/-- Modelled from the spec: a page has a size and margins (`S.Page`). -/
structure Page where
  width : ℚ
  height : ℚ
  margins : Margins

/-- Layout data of the predecessor measure reachable through `measure.prev`
(the back link of the measure chain). -/
structure PrevLayout where
  x : ℚ
  y : ℚ

/-- Modelled from the spec: the external measure aggregate (`S.Measure`), as
far as the parser touches it — position, height, staff spacing, new-system
flag, time-division unit, time cursor, clef, collected notes and beams, and
the back link to the predecessor's layout. -/
structure Measure where
  prev : Option PrevLayout
  height : ℚ
  x : ℚ
  y : ℚ
  staffSpacing : Option ℚ
  isNewSystem : Bool
  timeDivisions : Option ℤ
  timeCursor : ℚ
  clef : Option XMLNode
  notes : List (Note × Bool)
  beams : List Beam

/-- Modelled from the spec: `measure.add_note(note, isChord)` appends. -/
def addNote (m : Measure) (note : Note) (isChord : Bool) : Measure :=
  { m with notes := m.notes ++ [(note, isChord)] }

/-- Modelled from the spec: `measure.add_beam(beam)` registers a completed
beam on the measure. -/
def addBeam (m : Measure) (b : Beam) : Measure :=
  { m with beams := m.beams ++ [b] }

/-- Modelled from the spec: `measure.change_time(delta)` advances the
measure's internal time cursor by the signed rational delta. -/
def change_time (m : Measure) (delta : ℚ) : Measure :=
  { m with timeCursor := m.timeCursor + delta }

/-- Modelled from the spec: `measure.follow_prev_layout()` "reproduces its
predecessor's (x, y) exactly"; with no predecessor there is nothing to copy
and the layout is left unchanged. -/
def follow_prev_layout (m : Measure) : Measure :=
  match m.prev with
  | none => m
  | some p => { m with x := p.x, y := p.y }

/-- The transient parse context (`ParseContext`): the beam-id → beam mapping.
The sheet, page and measure it also carries are threaded as explicit
arguments of the handlers here.  `nextUid` is the ghost allocator for beam
object identities. -/
structure ParseContext where
  beams : List (String × Beam)
  nextUid : ℕ

/-- Python dict lookup `d[k]` on the beam mapping (first binding wins;
insertions keep keys unique). -/
def dictLookup (d : List (String × Beam)) (k : String) : Option Beam :=
  match d with
  | [] => none
  | (k', v) :: rest => if k' = k then some v else dictLookup rest k

/-- Python dict update `d[k] = v`: replace the binding of `k`, or append. -/
def dictInsert (d : List (String × Beam)) (k : String) (v : Beam) :
    List (String × Beam) :=
  match d with
  | [] => [(k, v)]
  | (k', v') :: rest =>
    if k' = k then (k, v) :: rest else (k', v') :: dictInsert rest k v

/-- `Fraction(node.find('duration').text) / measure.timeDivisions / 4`
with each Python failure mode as a fault: missing `duration` element
(`AttributeError` on `.text`), `None` text (`TypeError`), unparsable text
(`ValueError`), unset time-division unit, zero divisions
(`ZeroDivisionError`). -/
def computeDuration (m : Measure) (node : XMLNode) : Except Fault ℚ :=
  match node.find "duration" with
  | none => .error .attributeError
  | some del =>
    match del.text with
    | none => .error .typeError
    | some t =>
      match parseDecimal? t with
      | none => .error .valueError
      | some q =>
        match m.timeDivisions with
        | none => .error .attributeError
        | some n =>
          if n = 0 then .error .zeroDivisionError
          else .ok (q / (n : ℚ) / 4)

/-- The note's screen-position hint from `default-x`/`default-y`; any
`KeyError`/`ValueError` yields no hint. -/
def notePos (n : XMLNode) : Option (ℚ × ℚ) :=
  match lookupAttr n "default-x", lookupAttr n "default-y" with
  | some sx, some sy =>
    match parseDecimal? sx, parseDecimal? sy with
    | some qx, some qy => some (qx, qy)
    | _, _ => none
  | _, _ => none

/-- `len(node.xpath('dot'))`: the number of `dot` children. -/
def noteDots (n : XMLNode) : ℕ :=
  (n.children.filter (fun c => c.tag = "dot")).length

/-- `monad(node.find('type'), lambda x: x.text, None)`. -/
def noteType (n : XMLNode) : Option String :=
  match n.find "type" with
  | none => none
  | some el => el.text

/-- `handle_note`: grace and cue notes are skipped; otherwise a pitched note
or rest is constructed (evaluating the deferred duration/dots/type/position
closures), the beam bracket is resolved for a stemmed non-chord pitched note,
and the note is added to the measure.  The source mutates the beam object
that is shared between the mapping and, on `end`, the measure; here the
updated beam is written back to both places, which is observationally the
same.  On `end` the mapping keeps its binding for the id (the source never
deletes it).  A beam type other than begin/continue/end leaves the local
`beam` unassigned, so `beam.stems.append(stem)` raises `UnboundLocalError`
before the note is added. -/
def handle_note (ctx : ParseContext) (measure : Measure) (node : XMLNode) :
    Except Fault (ParseContext × Measure) :=
  if (node.find "grace").isSome then .ok (ctx, measure)
  else if (node.find "cue").isSome then .ok (ctx, measure)
  else
    let isChord := (node.find "chord").isSome
    match node.find "pitch" with
    | some pitchNode =>
      let stem : Option Stem :=
        if isChord then none else
          match node.find "stem" with
          | none => none
          | some s => some ⟨s⟩
      let accidental := node.find "accidental"
      match computeDuration measure node with
      | .error e => .error e
      | .ok dur =>
        let note : Note :=
          .pitched (notePos node) dur (noteDots node) (noteType node)
            pitchNode stem accidental
        match node.find "beam", stem with
        | some beamNode, some st =>
          match lookupAttr beamNode "number" with
          | none => .error .keyError
          | some number =>
            if beamNode.text = some "begin" then
              let beam : Beam := ⟨ctx.nextUid, [st]⟩
              let ctx' : ParseContext :=
                ⟨dictInsert ctx.beams number beam, ctx.nextUid + 1⟩
              .ok (ctx', addNote measure note isChord)
            else if beamNode.text = some "continue" then
              match dictLookup ctx.beams number with
              | none => .error .keyError
              | some beam =>
                let beam' : Beam := ⟨beam.uid, beam.stems ++ [st]⟩
                let ctx' : ParseContext :=
                  ⟨dictInsert ctx.beams number beam', ctx.nextUid⟩
                .ok (ctx', addNote measure note isChord)
            else if beamNode.text = some "end" then
              match dictLookup ctx.beams number with
              | none => .error .keyError
              | some beam =>
                let beam' : Beam := ⟨beam.uid, beam.stems ++ [st]⟩
                let ctx' : ParseContext :=
                  ⟨dictInsert ctx.beams number beam', ctx.nextUid⟩
                .ok (ctx', addNote (addBeam measure beam') note isChord)
            else
              .error .unboundLocal
        | _, _ => .ok (ctx, addNote measure note isChord)
    | none =>
      match node.find "rest" with
      | some _ =>
        match computeDuration measure node with
        | .error e => .error e
        | .ok dur =>
          .ok (ctx, addNote measure
            (.rest (notePos node) dur (noteDots node) (noteType node)) isChord)
      | none => .ok (ctx, measure)

/-- `handle_forward`: advance the time cursor by `+duration`. -/
def handle_forward (m : Measure) (node : XMLNode) : Except Fault Measure :=
  match computeDuration m node with
  | .error e => .error e
  | .ok d => .ok (change_time m d)

/-- `handle_backup`: advance the time cursor by `-duration`. -/
def handle_backup (m : Measure) (node : XMLNode) : Except Fault Measure :=
  match computeDuration m node with
  | .error e => .error e
  | .ok d => .ok (change_time m (-d))

/-- `handle_attributes`: a `divisions` child sets the measure's
time-division unit; a `clef` child updates the clef. -/
def handle_attributes (m : Measure) (node : XMLNode) : Except Fault Measure :=
  match node.find "divisions" with
  | some del =>
    match del.text with
    | none => .error .typeError
    | some t =>
      match parseInt? t with
      | none => .error .valueError
      | some k =>
        let m := { m with timeDivisions := some k }
        match node.find "clef" with
        | some c => .ok { m with clef := some c }
        | none => .ok m
  | none =>
    match node.find "clef" with
    | some c => .ok { m with clef := some c }
    | none => .ok m

/-- The three placement classes of the print-layout state machine. -/
inductive Placement where
  | newPage
  | newSystem
  | continuation
deriving DecidableEq

/-- The placement decision of `handle_print`: two booleans
(`prev is None or attr == 'yes'`, compared after lowercasing) followed by
the `if newPage / elif newSystem / else` chain. -/
def printPlacement (m : Measure) (node : XMLNode) : Placement :=
  let newSystem : Bool :=
    m.prev.isNone || (toLowerStr (attrD node "new-system" "no") = "yes")
  let newPage : Bool :=
    m.prev.isNone || (toLowerStr (attrD node "new-page" "no") = "yes")
  if newPage then .newPage
  else if newSystem then .newSystem
  else .continuation

/-- Modelled from the spec: `S.Margins(node)` with a missing node giving the
zero/default margins.  Only the left margin is read by the parser. -/
def marginsOfNode (o : Option XMLNode) : Margins :=
  match o with
  | none => ⟨0, 0, 0, 0⟩
  | some n =>
    let get (t : String) : ℚ :=
      match n.find t with
      | none => 0
      | some el =>
        match el.text with
        | none => 0
        | some s =>
          match parseDecimal? s with
          | none => 0
          | some q => q
    ⟨get "left-margin", get "top-margin", get "right-margin", get "bottom-margin"⟩

/-- `float(node.find(path).text)` for a required layout value: a missing
element is an `AttributeError`, `None` text a `TypeError`, unparsable text a
`ValueError`. -/
def requiredDecimal (node : XMLNode) (path : List String) : Except Fault ℚ :=
  match findPath node path with
  | none => .error .attributeError
  | some el =>
    match el.text with
    | none => .error .typeError
    | some t =>
      match parseDecimal? t with
      | none => .error .valueError
      | some v => .ok v

/-- `handle_print`: optional staff-spacing override, then the placement
branch.  NEW_PAGE and NEW_SYSTEM require their distance value; the CONTINUE
branch copies the predecessor layout and then tests the `measure-distance`
element with lxml truthiness — an element is truthy only when it has child
elements, so a value-only `measure-distance` element is skipped. -/
def handle_print (page : Page) (measure : Measure) (node : XMLNode) :
    Except Fault Measure :=
  let withSpacing : Except Fault Measure :=
    match lookupAttr node "staff-spacing" with
    | none => .ok measure
    | some s =>
      match parseDecimal? s with
      | none => .error .valueError
      | some v => .ok { measure with staffSpacing := some v }
  match withSpacing with
  | .error e => .error e
  | .ok measure =>
    let systemMargins := marginsOfNode (findPath node ["system-layout", "system-margins"])
    match printPlacement measure node with
    | .newPage =>
      match requiredDecimal node ["system-layout", "top-system-distance"] with
      | .error e => .error e
      | .ok topSystemDistance =>
        .ok { measure with
          isNewSystem := true
          y := page.height - page.margins.top - topSystemDistance - measure.height
          x := systemMargins.left + page.margins.left }
    | .newSystem =>
      match measure.prev with
      | none => .error .attributeError
      | some p =>
        match requiredDecimal node ["system-layout", "system-distance"] with
        | .error e => .error e
        | .ok systemDistance =>
          .ok { measure with
            isNewSystem := true
            x := systemMargins.left + page.margins.left
            y := p.y - systemDistance - measure.height }
    | .continuation =>
      let m1 := follow_prev_layout measure
      match findPath node ["measure-layout", "measure-distance"] with
      | none => .ok m1
      | some md =>
        if md.children.isEmpty then .ok m1
        else
          match md.text with
          | none => .error .typeError
          | some t =>
            match parseDecimal? t with
            | none => .error .valueError
            | some v => .ok { m1 with x := m1.x + v }

/-- The per-measure layout step of `parse` (lines 57–60): a measure without
a print element copies its predecessor's layout, otherwise `handle_print`
runs on the print element. -/
def layoutMeasure (page : Page) (measure : Measure) (measureNode : XMLNode) :
    Except Fault Measure :=
  match measureNode.find "print" with
  | none => .ok (follow_prev_layout measure)
  | some printNode => handle_print page measure printNode

/-- The dispatch loop of `parse` restricted to `note` children: each note is
fed to `handle_note`, and any fault aborts the whole run. -/
def processNotes (ctx : ParseContext) (measure : Measure) :
    List XMLNode → Except Fault (ParseContext × Measure)
  | [] => .ok (ctx, measure)
  | n :: rest =>
    match handle_note ctx measure n with
    | .error e => .error e
    | .ok (ctx', m') => processNotes ctx' m' rest

/-- Input to `_read_musicxml`: either a compressed container with named
entries or a plain file; opening a plain file as a container raises
`BadZipFile`, which is the fallback path. -/
inductive FileContent where
  | zipFile (entries : List (String × List ℕ))
  | rawFile (bytes : List ℕ)

/-- Scan of the container entries: the first name outside the `META-INF/`
metadata area ending in `.xml` is read. -/
def findXmlEntry : List (String × List ℕ) → Option (List ℕ)
  | [] => none
  | (name, data) :: rest =>
    if !(startsWithStr name "META-INF/") && endsWithStr name ".xml" then some data
    else findXmlEntry rest

/-- The bytes `_read_musicxml` obtains before XML parsing: the selected
container entry, or the raw file bytes on the `BadZipFile` fallback. -/
def obtainedContent : FileContent → Option (List ℕ)
  | .zipFile entries => findXmlEntry entries
  | .rawFile bytes => some bytes

/-- `_read_musicxml`, parametrised by the XML parser (`lxml.etree.XML`,
returning `none` on `XMLSyntaxError`): `FormatError` when no content was
obtained (`not content` is also true of empty bytes) or when the content
does not parse. -/
def read_musicxml (parseXML : List ℕ → Option XMLNode) (file : FileContent) :
    Except Unit XMLNode :=
  match obtainedContent file with
  | none => .error ()
  | some bytes =>
    if bytes.isEmpty then .error ()
    else
      match parseXML bytes with
      | none => .error ()
      | some doc => .ok doc

/-! ### Schematic inputs

A family of concrete MusicXML `note` elements covering the beam-resolution
claims: a non-chord pitched note with a stem, a unit duration, and one beam
child of the given type and number. -/

/-- A `stem` element with the given text (`up`/`down`/…). -/
def stemNode (s : String) : XMLNode :=
  .mk "stem" [] (some s) []

/-- The `pitch` element of a schematic note. -/
def pitchNode : XMLNode :=
  .mk "pitch" [] none []

/-- A non-chord pitched note with a stem and one beam child of type `bt`
and beam number `num`. -/
def beamNote (bt num s : String) : XMLNode :=
  .mk "note" [] none
    [ .mk "duration" [] (some "1") [],
      pitchNode,
      stemNode s,
      .mk "beam" [("number", num)] (some bt) [] ]

/-- The note value `handle_note` constructs from `beamNote bt num s` in a
measure with time-division unit `d`. -/
def beamNoteValue (d : ℤ) (s : String) : Note :=
  .pitched none ((1 : ℚ) / (d : ℚ) / 4) 0 none pitchNode (some ⟨stemNode s⟩) none

/-! ### Dictionary lemmas -/

theorem dictLookup_insert_self (d : List (String × Beam)) (k : String) (v : Beam) :
    dictLookup (dictInsert d k v) k = some v := by
  induction d with
  | nil => simp [dictInsert, dictLookup]
  | cons p rest ih =>
    obtain ⟨k', v'⟩ := p
    by_cases h : k' = k
    · simp [dictInsert, dictLookup, h]
    · simp [dictInsert, dictLookup, h, ih]

theorem mem_dictInsert (d : List (String × Beam)) (k : String) (v : Beam)
    (p : String × Beam) (hp : p ∈ dictInsert d k v) : p = (k, v) ∨ p ∈ d := by
  induction d with
  | nil => simpa [dictInsert] using hp
  | cons q rest ih =>
    obtain ⟨k', v'⟩ := q
    by_cases h : k' = k
    · simp only [dictInsert, if_pos h] at hp
      rcases List.mem_cons.mp hp with h1 | h2
      · exact Or.inl h1
      · exact Or.inr (List.mem_cons_of_mem _ h2)
    · simp only [dictInsert, if_neg h] at hp
      rcases List.mem_cons.mp hp with h1 | h2
      · exact Or.inr (h1 ▸ List.mem_cons_self _ _)
      · rcases ih h2 with h3 | h4
        · exact Or.inl h3
        · exact Or.inr (List.mem_cons_of_mem _ h4)

theorem dictLookup_mem (d : List (String × Beam)) (k : String) (v : Beam)
    (h : dictLookup d k = some v) : (k, v) ∈ d := by
  induction d with
  | nil => simp [dictLookup] at h
  | cons p rest ih =>
    obtain ⟨k', v'⟩ := p
    by_cases hk : k' = k
    · simp only [dictLookup, if_pos hk] at h
      subst hk
      cases h
      exact List.mem_cons_self _ _
    · simp only [dictLookup, if_neg hk] at h
      exact List.mem_cons_of_mem _ (ih h)

/-! ### Reduction lemmas for schematic notes -/

theorem find_beamNote_grace (bt n s : String) :
    (beamNote bt n s).find "grace" = none := rfl

theorem find_beamNote_cue (bt n s : String) :
    (beamNote bt n s).find "cue" = none := rfl

theorem find_beamNote_chord (bt n s : String) :
    (beamNote bt n s).find "chord" = none := rfl

theorem find_beamNote_pitch (bt n s : String) :
    (beamNote bt n s).find "pitch" = some pitchNode := rfl

theorem find_beamNote_stem (bt n s : String) :
    (beamNote bt n s).find "stem" = some (stemNode s) := rfl

theorem find_beamNote_beam (bt n s : String) :
    (beamNote bt n s).find "beam" = some (.mk "beam" [("number", n)] (some bt) []) := rfl

theorem parseDecimal_one : parseDecimal? "1" = some 1 := by
  have h : parseDecimal? "1" = some ((1 : ℚ) * ((1 : ℕ) : ℚ)) := rfl
  rw [h]
  norm_num

theorem computeDuration_eq (m : Measure) (node del : XMLNode) (t : String) (q : ℚ)
    (d : ℤ) (hfind : node.find "duration" = some del) (htext : del.text = some t)
    (hparse : parseDecimal? t = some q) (hdiv : m.timeDivisions = some d)
    (hd : d ≠ 0) :
    computeDuration m node = .ok (q / (d : ℚ) / 4) := by
  unfold computeDuration
  rw [hfind]
  dsimp only
  rw [htext]
  dsimp only
  rw [hparse]
  dsimp only
  rw [hdiv]
  simp [hd]

theorem computeDuration_beamNote (m : Measure) (d : ℤ)
    (hdiv : m.timeDivisions = some d) (hd : d ≠ 0) (bt n s : String) :
    computeDuration m (beamNote bt n s) = .ok ((1 : ℚ) / (d : ℚ) / 4) :=
  computeDuration_eq m _ _ "1" 1 d rfl rfl parseDecimal_one hdiv hd

/-- Result of the `begin` branch of the beam resolver. -/
def beamBeginResult (ctx : ParseContext) (m : Measure) (note : Note) (st : Stem)
    (n : String) : Except Fault (ParseContext × Measure) :=
  .ok (⟨dictInsert ctx.beams n ⟨ctx.nextUid, [st]⟩, ctx.nextUid + 1⟩,
    addNote m note false)

/-- Result of the `continue` branch of the beam resolver. -/
def beamContinueResult (ctx : ParseContext) (m : Measure) (note : Note) (st : Stem)
    (n : String) : Except Fault (ParseContext × Measure) :=
  match dictLookup ctx.beams n with
  | none => .error .keyError
  | some beam =>
    .ok (⟨dictInsert ctx.beams n ⟨beam.uid, beam.stems ++ [st]⟩, ctx.nextUid⟩,
      addNote m note false)

/-- Result of the `end` branch of the beam resolver. -/
def beamEndResult (ctx : ParseContext) (m : Measure) (note : Note) (st : Stem)
    (n : String) : Except Fault (ParseContext × Measure) :=
  match dictLookup ctx.beams n with
  | none => .error .keyError
  | some beam =>
    .ok (⟨dictInsert ctx.beams n ⟨beam.uid, beam.stems ++ [st]⟩, ctx.nextUid⟩,
      addNote (addBeam m ⟨beam.uid, beam.stems ++ [st]⟩) note false)

/-- The beam-resolution step of `handle_note` as a function of the beam type
and number, with the `UnboundLocalError` default branch. -/
def beamStep (ctx : ParseContext) (m : Measure) (note : Note) (st : Stem)
    (bt n : String) : Except Fault (ParseContext × Measure) :=
  if bt = "begin" then beamBeginResult ctx m note st n
  else if bt = "continue" then beamContinueResult ctx m note st n
  else if bt = "end" then beamEndResult ctx m note st n
  else .error .unboundLocal

/-- `handle_note` on a schematic beam note is exactly the beam-resolution
step, once the duration computation succeeds. -/
theorem handle_note_beamNote (ctx : ParseContext) (m : Measure) (d : ℤ)
    (hdiv : m.timeDivisions = some d) (hd : d ≠ 0) (bt n s : String) :
    handle_note ctx m (beamNote bt n s) =
      beamStep ctx m (beamNoteValue d s) ⟨stemNode s⟩ bt n := by
  have hred : handle_note ctx m (beamNote bt n s) =
      (match computeDuration m (beamNote bt n s) with
       | .error e => .error e
       | .ok dur =>
         if (some bt : Option String) = some "begin" then
           beamBeginResult ctx m
             (.pitched none dur 0 none pitchNode (some ⟨stemNode s⟩) none)
             ⟨stemNode s⟩ n
         else if (some bt : Option String) = some "continue" then
           beamContinueResult ctx m
             (.pitched none dur 0 none pitchNode (some ⟨stemNode s⟩) none)
             ⟨stemNode s⟩ n
         else if (some bt : Option String) = some "end" then
           beamEndResult ctx m
             (.pitched none dur 0 none pitchNode (some ⟨stemNode s⟩) none)
             ⟨stemNode s⟩ n
         else .error .unboundLocal) := rfl
  rw [hred, computeDuration_beamNote m d hdiv hd]
  show (if (some bt : Option String) = some "begin" then _
    else if (some bt : Option String) = some "continue" then _
    else if (some bt : Option String) = some "end" then _ else _) = _
  unfold beamStep beamNoteValue
  simp only [Option.some.injEq]

@[simp] theorem addNote_beams (m : Measure) (note : Note) (c : Bool) :
    (addNote m note c).beams = m.beams := rfl

@[simp] theorem addNote_timeDivisions (m : Measure) (note : Note) (c : Bool) :
    (addNote m note c).timeDivisions = m.timeDivisions := rfl

@[simp] theorem addNote_notes (m : Measure) (note : Note) (c : Bool) :
    (addNote m note c).notes = m.notes ++ [(note, c)] := rfl

@[simp] theorem addBeam_beams (m : Measure) (b : Beam) :
    (addBeam m b).beams = m.beams ++ [b] := rfl

@[simp] theorem addBeam_timeDivisions (m : Measure) (b : Beam) :
    (addBeam m b).timeDivisions = m.timeDivisions := rfl

@[simp] theorem addBeam_notes (m : Measure) (b : Beam) :
    (addBeam m b).notes = m.notes := rfl

/-- Processing the `continue`* `end` tail of a beam sequence whose id is
bound to beam `b`: the completed beam — `b`'s stems extended by the stems of
the tail in document order — lands on the measure, and the id stays bound to
it. -/
theorem processNotes_conts_end (n sk : String) (mids : List String)
    (ctx : ParseContext) (m : Measure) (d : ℤ)
    (hdiv : m.timeDivisions = some d) (hd : d ≠ 0)
    (b : Beam) (hb : dictLookup ctx.beams n = some b) :
    ∃ ctx' : ParseContext, ∃ m' : Measure,
      processNotes ctx m
          (mids.map (fun t => beamNote "continue" n t) ++ [beamNote "end" n sk])
        = .ok (ctx', m')
      ∧ m'.beams = m.beams ++
          [⟨b.uid, b.stems ++ mids.map (fun t => ⟨stemNode t⟩) ++ [⟨stemNode sk⟩]⟩]
      ∧ dictLookup ctx'.beams n =
          some ⟨b.uid, b.stems ++ mids.map (fun t => ⟨stemNode t⟩) ++ [⟨stemNode sk⟩]⟩ := by
  induction mids generalizing ctx m b with
  | nil =>
    refine ⟨⟨dictInsert ctx.beams n ⟨b.uid, b.stems ++ [⟨stemNode sk⟩]⟩, ctx.nextUid⟩,
      addNote (addBeam m ⟨b.uid, b.stems ++ [⟨stemNode sk⟩]⟩)
        (beamNoteValue d sk) false, ?_, ?_, ?_⟩
    · show processNotes ctx m [beamNote "end" n sk] = _
      unfold processNotes
      rw [handle_note_beamNote ctx m d hdiv hd]
      unfold beamStep
      rw [if_neg (by decide), if_neg (by decide), if_pos rfl]
      unfold beamEndResult
      rw [hb]
      rfl
    · simp
    · simp [dictLookup_insert_self]
  | cons t mids ih =>
    have hstep : handle_note ctx m (beamNote "continue" n t) =
        .ok (⟨dictInsert ctx.beams n ⟨b.uid, b.stems ++ [⟨stemNode t⟩]⟩, ctx.nextUid⟩,
          addNote m (beamNoteValue d t) false) := by
      rw [handle_note_beamNote ctx m d hdiv hd]
      unfold beamStep
      rw [if_neg (by decide), if_pos rfl]
      unfold beamContinueResult
      rw [hb]
    obtain ⟨ctx', m', hrun, hbeams, hlook⟩ :=
      ih ⟨dictInsert ctx.beams n ⟨b.uid, b.stems ++ [⟨stemNode t⟩]⟩, ctx.nextUid⟩
        (addNote m (beamNoteValue d t) false)
        (by simpa using hdiv)
        ⟨b.uid, b.stems ++ [⟨stemNode t⟩]⟩
        (dictLookup_insert_self _ _ _)
    refine ⟨ctx', m', ?_, ?_, ?_⟩
    · show processNotes ctx m
          (beamNote "continue" n t ::
            (mids.map (fun u => beamNote "continue" n u) ++ [beamNote "end" n sk]))
        = _
      unfold processNotes
      rw [hstep]
      exact hrun
    · simpa using hbeams
    · simpa using hlook

/-- A concrete measure for witnesses: first measure, height 20, time
divisions 1. -/
def measureW : Measure :=
  ⟨none, 20, 0, 0, none, false, some 1, 0, none, [], []⟩

/-- C1 (amended): a `begin`/`continue`*/`end` beam sequence on one numeric
id, each element carried by a non-chord pitched note owning a stem, yields
exactly one beam registered on the measure processing the `end`, whose stem
sequence is the stems of those notes in document order; the id is not
released on `end` — it stays bound to the completed beam in the context's
beam mapping. -/
theorem beam_lifecycle_registers_one_beam (ctx : ParseContext) (m : Measure)
    (n s0 sk : String) (mids : List String) (d : ℤ)
    (hdiv : m.timeDivisions = some d) (hd : d ≠ 0) :
    ∃ ctx' : ParseContext, ∃ m' : Measure, ∃ b : Beam,
      processNotes ctx m
          (beamNote "begin" n s0 ::
            (mids.map (fun t => beamNote "continue" n t) ++ [beamNote "end" n sk]))
        = .ok (ctx', m')
      ∧ m'.beams = m.beams ++ [b]
      ∧ b.stems = ((s0 :: mids) ++ [sk]).map (fun t => ⟨stemNode t⟩)
      ∧ dictLookup ctx'.beams n = some b := by
  have hstep : handle_note ctx m (beamNote "begin" n s0) =
      .ok (⟨dictInsert ctx.beams n ⟨ctx.nextUid, [⟨stemNode s0⟩]⟩, ctx.nextUid + 1⟩,
        addNote m (beamNoteValue d s0) false) := by
    rw [handle_note_beamNote ctx m d hdiv hd]
    unfold beamStep
    rw [if_pos rfl]
    rfl
  obtain ⟨ctx', m', hrun, hbeams, hlook⟩ :=
    processNotes_conts_end n sk mids
      ⟨dictInsert ctx.beams n ⟨ctx.nextUid, [⟨stemNode s0⟩]⟩, ctx.nextUid + 1⟩
      (addNote m (beamNoteValue d s0) false) d (by simpa using hdiv) hd
      ⟨ctx.nextUid, [⟨stemNode s0⟩]⟩ (dictLookup_insert_self _ _ _)
  refine ⟨ctx', m',
    ⟨ctx.nextUid, [⟨stemNode s0⟩] ++ mids.map (fun t => ⟨stemNode t⟩) ++ [⟨stemNode sk⟩]⟩,
    ?_, ?_, ?_, ?_⟩
  · unfold processNotes
    rw [hstep]
    exact hrun
  · simpa using hbeams
  · simp
  · simpa using hlook

/-- C1 witness: begin, continue, end on id 1 leaves exactly one beam with
the three stems in order on the measure. -/
theorem beam_lifecycle_registers_one_beam_witness :
    ((processNotes ⟨[], 0⟩ measureW
        (beamNote "begin" "1" "up" ::
          (["up"].map (fun t => beamNote "continue" "1" t) ++ [beamNote "end" "1" "down"]))).toOption.map
      (fun p => p.2.beams.map Beam.stems)) =
      some [[⟨stemNode "up"⟩, ⟨stemNode "up"⟩, ⟨stemNode "down"⟩]] := by
  obtain ⟨ctx', m', b, hrun, hbeams, hstems, hlook⟩ :=
    beam_lifecycle_registers_one_beam ⟨[], 0⟩ measureW "1" "up" "down" ["up"] 1 rfl (by decide)
  rw [hrun]
  simp [Except.toOption, hbeams, hstems, measureW]

/-- C1 counterexample: after a `begin`/`end` pair on id 1, the context's
beam mapping still contains id 1 — the binding is not released on `end`. -/
theorem beam_id_not_released_on_end :
    ((processNotes ⟨[], 0⟩ measureW
        [beamNote "begin" "1" "up", beamNote "end" "1" "down"]).toOption.map
      (fun p => (dictLookup p.1.beams "1").isSome)) = some true := rfl

/-- C2: a `continue` or `end` beam element whose numeric id has no open
beam in the context faults with a `KeyError`, aborting the rest of the run;
no measure state is returned and no beam is registered. -/
theorem beam_orphan_faults (ctx : ParseContext) (m : Measure) (d : ℤ)
    (hdiv : m.timeDivisions = some d) (hd : d ≠ 0) (bt n s : String)
    (hbt : bt = "continue" ∨ bt = "end")
    (hmiss : dictLookup ctx.beams n = none) (rest : List XMLNode) :
    processNotes ctx m (beamNote bt n s :: rest) = .error .keyError := by
  unfold processNotes
  rw [handle_note_beamNote ctx m d hdiv hd]
  unfold beamStep
  rcases hbt with h | h <;> subst h
  · rw [if_neg (by decide), if_pos rfl]
    unfold beamContinueResult
    rw [hmiss]
  · rw [if_neg (by decide), if_neg (by decide), if_pos rfl]
    unfold beamEndResult
    rw [hmiss]

/-- C2 witness: a lone `continue` on id 3 in a fresh context aborts with a
`KeyError`. -/
theorem beam_orphan_faults_witness :
    processNotes ⟨[], 0⟩ measureW [beamNote "continue" "3" "up"] = .error .keyError :=
  beam_orphan_faults ⟨[], 0⟩ measureW 1 rfl (by decide) "continue" "3" "up"
    (Or.inl rfl) rfl []

/-- C9: a beam child whose type text is none of begin/continue/end leaves
the local `beam` variable unassigned, so `handle_note` faults with an
`UnboundLocalError` and the note is never added to the measure. -/
theorem beam_unknown_type_faults (ctx : ParseContext) (m : Measure) (d : ℤ)
    (hdiv : m.timeDivisions = some d) (hd : d ≠ 0) (bt n s : String)
    (h1 : bt ≠ "begin") (h2 : bt ≠ "continue") (h3 : bt ≠ "end") :
    handle_note ctx m (beamNote bt n s) = .error .unboundLocal := by
  rw [handle_note_beamNote ctx m d hdiv hd]
  unfold beamStep
  rw [if_neg h1, if_neg h2, if_neg h3]

/-- C9 witness: a `forward hook` beam type faults. -/
theorem beam_unknown_type_faults_witness :
    handle_note ⟨[], 0⟩ measureW (beamNote "forward hook" "1" "up") =
      .error .unboundLocal :=
  beam_unknown_type_faults ⟨[], 0⟩ measureW 1 rfl (by decide) "forward hook" "1" "up"
    (by decide) (by decide) (by decide)

/-! ### Beam object identity

Python beam objects are values here; the ghost `uid` field models object
identity.  The facts below track that a uid that has disappeared from the
beam mapping can never reach a measure's registered beams again. -/

/-- Every beam in the mapping has identity below the allocator. -/
def UidsBounded (ctx : ParseContext) : Prop :=
  ∀ p ∈ ctx.beams, p.2.uid < ctx.nextUid

/-- The identity `k` does not occur in the beam mapping. -/
def AvoidsUid (ctx : ParseContext) (k : ℕ) : Prop :=
  ∀ p ∈ ctx.beams, p.2.uid ≠ k

/-- What one successful `handle_note` step guarantees about beam
identities: the allocator grows, boundedness is preserved, and an absent
identity stays absent and never reaches the measure's beams. -/
def UidFacts (ctx ctx' : ParseContext) (m m' : Measure) : Prop :=
  ctx.nextUid ≤ ctx'.nextUid
  ∧ (UidsBounded ctx → UidsBounded ctx')
  ∧ ∀ k, k < ctx.nextUid → AvoidsUid ctx k →
      AvoidsUid ctx' k ∧ ∀ b ∈ m'.beams, b ∈ m.beams ∨ b.uid ≠ k

theorem uid_facts_unchanged (ctx : ParseContext) (m m' : Measure)
    (hbeams : m'.beams = m.beams) : UidFacts ctx ctx m m' := by
  refine ⟨le_refl _, fun hB => hB, fun k _ hav => ⟨hav, fun b hb => Or.inl ?_⟩⟩
  rw [hbeams] at hb
  exact hb

theorem uid_facts_begin (ctx : ParseContext) (m m' : Measure) (n : String)
    (sts : List Stem) (hbeams : m'.beams = m.beams) :
    UidFacts ctx ⟨dictInsert ctx.beams n ⟨ctx.nextUid, sts⟩, ctx.nextUid + 1⟩ m m' := by
  refine ⟨Nat.le_succ _, fun hB p hp => ?_, fun k hk hav => ⟨fun p hp => ?_, ?_⟩⟩
  · rcases mem_dictInsert _ _ _ _ hp with h | h
    · rw [h]
      exact Nat.lt_succ_self _
    · exact Nat.lt_succ_of_lt (hB p h)
  · rcases mem_dictInsert _ _ _ _ hp with h | h
    · rw [h]
      exact Nat.ne_of_gt hk
    · exact hav p h
  · intro b hb
    rw [hbeams] at hb
    exact Or.inl hb

theorem uid_facts_continue (ctx : ParseContext) (m m' : Measure) (n : String)
    (beam : Beam) (sts : List Stem) (hlk : dictLookup ctx.beams n = some beam)
    (hbeams : m'.beams = m.beams) :
    UidFacts ctx ⟨dictInsert ctx.beams n ⟨beam.uid, sts⟩, ctx.nextUid⟩ m m' := by
  have hmem := dictLookup_mem _ _ _ hlk
  refine ⟨le_refl _, fun hB p hp => ?_, fun k hk hav => ⟨fun p hp => ?_, ?_⟩⟩
  · rcases mem_dictInsert _ _ _ _ hp with h | h
    · rw [h]
      simpa using hB _ hmem
    · exact hB p h
  · rcases mem_dictInsert _ _ _ _ hp with h | h
    · rw [h]
      simpa using hav _ hmem
    · exact hav p h
  · intro b hb
    rw [hbeams] at hb
    exact Or.inl hb

theorem uid_facts_end (ctx : ParseContext) (m m' : Measure) (n : String)
    (beam : Beam) (sts : List Stem) (hlk : dictLookup ctx.beams n = some beam)
    (hbeams : m'.beams = m.beams ++ [⟨beam.uid, sts⟩]) :
    UidFacts ctx ⟨dictInsert ctx.beams n ⟨beam.uid, sts⟩, ctx.nextUid⟩ m m' := by
  have hmem := dictLookup_mem _ _ _ hlk
  refine ⟨le_refl _, fun hB p hp => ?_, fun k hk hav => ⟨fun p hp => ?_, ?_⟩⟩
  · rcases mem_dictInsert _ _ _ _ hp with h | h
    · rw [h]
      simpa using hB _ hmem
    · exact hB p h
  · rcases mem_dictInsert _ _ _ _ hp with h | h
    · rw [h]
      simpa using hav _ hmem
    · exact hav p h
  · intro b hb
    rw [hbeams] at hb
    rcases List.mem_append.mp hb with h | h
    · exact Or.inl h
    · right
      rw [List.mem_singleton.mp h]
      simpa using hav _ hmem

/-- Any successful `handle_note` step — on an arbitrary note element —
satisfies the beam-identity facts. -/
theorem handle_note_uid_facts (ctx ctx' : ParseContext) (m m' : Measure)
    (node : XMLNode) (h : handle_note ctx m node = .ok (ctx', m')) :
    UidFacts ctx ctx' m m' := by
  unfold handle_note at h
  simp only [] at h
  by_cases hg : (node.find "grace").isSome = true
  · rw [if_pos hg] at h
    cases h
    exact uid_facts_unchanged _ _ _ rfl
  rw [if_neg hg] at h
  by_cases hc : (node.find "cue").isSome = true
  · rw [if_pos hc] at h
    cases h
    exact uid_facts_unchanged _ _ _ rfl
  rw [if_neg hc] at h
  by_cases hch : (node.find "chord").isSome = true
  all_goals first | rw [if_pos hch] at h | rw [if_neg hch] at h
  all_goals repeat any_goals split at h
  all_goals
    first
      | exact Except.noConfusion h
      | (cases h
         first
           | exact uid_facts_unchanged _ _ _ rfl
           | exact uid_facts_begin _ _ _ _ _ rfl
           | (apply uid_facts_continue <;> first | assumption | rfl)
           | (apply uid_facts_end <;> first | assumption | rfl))

theorem uid_facts_trans (ctx1 ctx2 ctx3 : ParseContext) (m1 m2 m3 : Measure)
    (f1 : UidFacts ctx1 ctx2 m1 m2) (f2 : UidFacts ctx2 ctx3 m2 m3) :
    UidFacts ctx1 ctx3 m1 m3 := by
  obtain ⟨le1, b1, a1⟩ := f1
  obtain ⟨le2, b2, a2⟩ := f2
  refine ⟨le_trans le1 le2, fun hB => b2 (b1 hB), fun k hk hav => ?_⟩
  obtain ⟨hav2, hreg2⟩ := a1 k hk hav
  obtain ⟨hav3, hreg3⟩ := a2 k (lt_of_lt_of_le hk le1) hav2
  refine ⟨hav3, fun b hb => ?_⟩
  rcases hreg3 b hb with h | h
  · exact hreg2 b h
  · exact Or.inr h

/-- The beam-identity facts hold across any successful run of the note
loop. -/
theorem processNotes_uid_facts (nodes : List XMLNode) (ctx ctx' : ParseContext)
    (m m' : Measure) (h : processNotes ctx m nodes = .ok (ctx', m')) :
    UidFacts ctx ctx' m m' := by
  induction nodes generalizing ctx m with
  | nil =>
    unfold processNotes at h
    cases h
    exact uid_facts_unchanged _ _ _ rfl
  | cons x rest ih =>
    unfold processNotes at h
    split at h
    · exact Except.noConfusion h
    · next p hx =>
      obtain ⟨ctx1, m1⟩ := p
      exact uid_facts_trans _ _ _ _ _ _ (handle_note_uid_facts _ _ _ _ _ hx) (ih _ _ h)

/-- Membership in a dict update when the keys are distinct: an entry is the
new binding or an untouched entry under a different key. -/
theorem mem_dictInsert_strong (d : List (String × Beam)) (k : String) (v : Beam)
    (p : String × Beam) (hnodup : (d.map Prod.fst).Nodup)
    (hp : p ∈ dictInsert d k v) : p = (k, v) ∨ (p ∈ d ∧ p.1 ≠ k) := by
  induction d with
  | nil =>
    left
    simpa [dictInsert] using hp
  | cons q rest ih =>
    obtain ⟨k', v'⟩ := q
    rw [List.map_cons, List.nodup_cons] at hnodup
    obtain ⟨hknot, hrest⟩ := hnodup
    by_cases hk : k' = k
    · subst hk
      simp only [dictInsert, if_pos rfl] at hp
      rcases List.mem_cons.mp hp with h1 | h2
      · exact Or.inl h1
      · refine Or.inr ⟨List.mem_cons_of_mem _ h2, fun heq => hknot ?_⟩
        exact List.mem_map.mpr ⟨p, h2, heq⟩
    · simp only [dictInsert, if_neg hk] at hp
      rcases List.mem_cons.mp hp with h1 | h2
      · subst h1
        exact Or.inr ⟨List.mem_cons_self _ _, hk⟩
      · rcases ih hrest h2 with h3 | ⟨h4, h5⟩
        · exact Or.inl h3
        · exact Or.inr ⟨List.mem_cons_of_mem _ h4, h5⟩

/-- C10: a beam `begin` on an id that is still open never faults — the open
beam is silently replaced in the mapping by the fresh beam (which holds just
the current note's stem and a fresh identity), nothing is registered on the
measure by the `begin` itself, and under the reachable-state invariants
(identities bounded by the allocator, each identity bound at most once,
distinct mapping keys) the replaced beam's identity can never appear among
any measure's registered beams in any later processing unless it was already
registered before. -/
theorem beam_begin_replaces_open_beam (ctx : ParseContext) (m : Measure)
    (d : ℤ) (hdiv : m.timeDivisions = some d) (hd : d ≠ 0) (n s : String)
    (b : Beam) (hopen : dictLookup ctx.beams n = some b)
    (hB : UidsBounded ctx)
    (honly : ∀ p ∈ ctx.beams, p.2.uid = b.uid → p = (n, b))
    (hnodup : (ctx.beams.map Prod.fst).Nodup) :
    ∃ ctx' : ParseContext,
      handle_note ctx m (beamNote "begin" n s)
          = .ok (ctx', addNote m (beamNoteValue d s) false)
      ∧ dictLookup ctx'.beams n = some ⟨ctx.nextUid, [⟨stemNode s⟩]⟩
      ∧ (addNote m (beamNoteValue d s) false).beams = m.beams
      ∧ ∀ rest : List XMLNode, ∀ ctx'' : ParseContext, ∀ m'' : Measure,
          processNotes ctx' (addNote m (beamNoteValue d s) false) rest = .ok (ctx'', m'') →
          ∀ bm ∈ m''.beams, bm ∈ m.beams ∨ bm.uid ≠ b.uid := by
  have hstep : handle_note ctx m (beamNote "begin" n s) =
      .ok (⟨dictInsert ctx.beams n ⟨ctx.nextUid, [⟨stemNode s⟩]⟩, ctx.nextUid + 1⟩,
        addNote m (beamNoteValue d s) false) := by
    rw [handle_note_beamNote ctx m d hdiv hd]
    unfold beamStep
    rw [if_pos rfl]
    rfl
  have hbuid : b.uid < ctx.nextUid := hB _ (dictLookup_mem _ _ _ hopen)
  refine ⟨⟨dictInsert ctx.beams n ⟨ctx.nextUid, [⟨stemNode s⟩]⟩, ctx.nextUid + 1⟩,
    hstep, dictLookup_insert_self _ _ _, rfl, fun rest ctx'' m'' hrun bm hbm => ?_⟩
  have havoid : AvoidsUid
      ⟨dictInsert ctx.beams n ⟨ctx.nextUid, [⟨stemNode s⟩]⟩, ctx.nextUid + 1⟩ b.uid := by
    intro p hp
    rcases mem_dictInsert_strong _ _ _ _ hnodup hp with h1 | ⟨h2, h3⟩
    · rw [h1]
      exact fun hequ => absurd hequ (Nat.ne_of_gt hbuid)
    · intro hequ
      exact h3 (by rw [honly p h2 hequ])
  obtain ⟨-, -, afacts⟩ := processNotes_uid_facts rest _ _ _ _ hrun
  obtain ⟨-, hreg⟩ := afacts b.uid (Nat.lt_succ_of_lt hbuid) havoid
  rcases hreg bm hbm with h | h
  · exact Or.inl (by simpa using h)
  · exact Or.inr h

/-- C10 witness: a second `begin` on id 1 while id 1 is open succeeds, the
mapping holds the fresh beam, and a subsequent `end` registers only the
replacement, never the replaced beam (identity 0). -/
theorem beam_begin_replaces_open_beam_witness :
    ∃ ctx' : ParseContext,
      handle_note ⟨[("1", ⟨0, [⟨stemNode "up"⟩]⟩)], 1⟩ measureW (beamNote "begin" "1" "x")
          = .ok (ctx', addNote measureW (beamNoteValue 1 "x") false)
      ∧ dictLookup ctx'.beams "1" = some ⟨1, [⟨stemNode "x"⟩]⟩
      ∧ (addNote measureW (beamNoteValue 1 "x") false).beams = measureW.beams
      ∧ ∀ rest : List XMLNode, ∀ ctx'' : ParseContext, ∀ m'' : Measure,
          processNotes ctx' (addNote measureW (beamNoteValue 1 "x") false) rest = .ok (ctx'', m'') →
          ∀ bm ∈ m''.beams, bm ∈ measureW.beams ∨ bm.uid ≠ 0 :=
  beam_begin_replaces_open_beam ⟨[("1", ⟨0, [⟨stemNode "up"⟩]⟩)], 1⟩ measureW 1 rfl
    (by decide) "1" "x" ⟨0, [⟨stemNode "up"⟩]⟩ rfl
    (by intro p hp; rcases List.mem_singleton.mp hp with h; rw [h]; decide)
    (by intro p hp h
        rcases List.mem_singleton.mp hp with h1
        rw [h1])
    (by simp)

/-! ### Layout placement -/

/-- The first measure is always classified NEW_PAGE. -/
theorem printPlacement_of_first (m : Measure) (node : XMLNode)
    (hfirst : m.prev = none) : printPlacement m node = .newPage := by
  unfold printPlacement
  simp [hfirst]

/-- C3: the placement decision of `handle_print` — NEW_PAGE iff the measure
is the document's first or `new-page` lowercases to `yes`; otherwise
NEW_SYSTEM iff first or `new-system` lowercases to `yes`; otherwise
CONTINUE; the first measure is always NEW_PAGE; the classes are mutually
exclusive by construction. -/
theorem print_placement_classes (m : Measure) (node : XMLNode) :
    (printPlacement m node = .newPage ↔
      (m.prev = none ∨ toLowerStr (attrD node "new-page" "no") = "yes"))
    ∧ (printPlacement m node = .newSystem ↔
      (¬(m.prev = none ∨ toLowerStr (attrD node "new-page" "no") = "yes")
        ∧ (m.prev = none ∨ toLowerStr (attrD node "new-system" "no") = "yes")))
    ∧ (printPlacement m node = .continuation ↔
      (¬(m.prev = none ∨ toLowerStr (attrD node "new-page" "no") = "yes")
        ∧ ¬(m.prev = none ∨ toLowerStr (attrD node "new-system" "no") = "yes")))
    ∧ (m.prev = none → printPlacement m node = .newPage) := by
  unfold printPlacement
  simp only []
  split_ifs with h1 h2 <;>
    simp_all [Option.isNone_iff_eq_none]

/-- C3 witness: a first measure with an attribute-free print element is
classified NEW_PAGE. -/
theorem print_placement_classes_witness :
    printPlacement measureW (XMLNode.mk "print" [] none []) = .newPage :=
  (print_placement_classes measureW (XMLNode.mk "print" [] none [])).2.2.2 rfl

/-- The page used by layout witnesses: 100×100, margins 10 on every side. -/
def pageW : Page :=
  ⟨100, 100, ⟨10, 10, 10, 10⟩⟩

/-- A print element requesting CONTINUE placement with a value-only
`measure-layout/measure-distance` element of 80. -/
def contPrintNode : XMLNode :=
  .mk "print" [] none
    [.mk "measure-layout" [] none [.mk "measure-distance" [] (some "80") []]]

/-- A non-first measure whose predecessor sits at (50, 100). -/
def contMeasure : Measure :=
  ⟨some ⟨50, 100⟩, 20, 0, 0, none, false, some 1, 0, none, [], []⟩

/-- C4: on the failing input — CONTINUE placement with
`<measure-distance>80</measure-distance>` — `handle_print` copies the
predecessor's x = 50 and never adds the 80: the guard `if measureDistance:`
uses lxml element truthiness, which is false for an element without child
elements.  A measure with no print element at all does copy its
predecessor's (x, y) verbatim. -/
theorem measure_distance_ignored :
    ((handle_print pageW contMeasure contPrintNode).toOption.map Measure.x) = some 50
    ∧ (50 : ℚ) ≠ 50 + 80
    ∧ ((layoutMeasure pageW contMeasure (XMLNode.mk "measure" [] none [])).toOption.map
        (fun mm => (mm.x, mm.y))) = some (50, 100) := by
  refine ⟨rfl, by norm_num, rfl⟩

/-! ### Duration arithmetic -/

theorem parseDecimal_four : parseDecimal? "4" = some 4 := by
  have h : parseDecimal? "4" = some ((1 : ℚ) * ((4 : ℕ) : ℚ)) := rfl
  rw [h]
  norm_num

theorem parseDecimal_twelve : parseDecimal? "12" = some 12 := by
  have h : parseDecimal? "12" = some ((1 : ℚ) * ((12 : ℕ) : ℚ)) := rfl
  rw [h]
  norm_num

/-- A `note` element with only a duration child. -/
def durationNode (t : String) : XMLNode :=
  .mk "note" [] none [.mk "duration" [] (some t) []]

/-- A measure with the time-division unit `n`. -/
def measureDiv (n : ℤ) : Measure :=
  ⟨none, 20, 0, 0, none, false, some n, 0, none, [], []⟩

/-- C5: the duration of a note/rest/forward/backup element with duration
attribute parsing to `q` in a measure with time-division unit `d` is the
exact rational `q / d / 4 = q / (4·d)`; in particular divisions 4 with
duration 4 gives 1/4 and divisions 8 with duration 12 gives 3/8; the same
exact value is what `handle_forward` passes to the time cursor. -/
theorem duration_exact_rational (m : Measure) (node del : XMLNode) (t : String)
    (q : ℚ) (d : ℤ) (hfind : node.find "duration" = some del)
    (htext : del.text = some t) (hparse : parseDecimal? t = some q)
    (hdiv : m.timeDivisions = some d) (hd : d ≠ 0) :
    computeDuration m node = .ok (q / (d : ℚ) / 4)
    ∧ q / (d : ℚ) / 4 = q / (4 * (d : ℚ))
    ∧ handle_forward m node = .ok (change_time m (q / (d : ℚ) / 4))
    ∧ computeDuration (measureDiv 4) (durationNode "4") = .ok (1 / 4)
    ∧ computeDuration (measureDiv 8) (durationNode "12") = .ok (3 / 8) := by
  have hcd := computeDuration_eq m node del t q d hfind htext hparse hdiv hd
  refine ⟨hcd, ?_, ?_, ?_, ?_⟩
  · rw [div_div, mul_comm]
  · unfold handle_forward
    rw [hcd]
  · rw [computeDuration_eq (measureDiv 4) (durationNode "4") _ "4" 4 4 rfl rfl
      parseDecimal_four rfl (by decide)]
    norm_num
  · rw [computeDuration_eq (measureDiv 8) (durationNode "12") _ "12" 12 8 rfl rfl
      parseDecimal_twelve rfl (by decide)]
    norm_num

/-- C5 witness: divisions 4, duration 4 gives the exact fraction 1/4. -/
theorem duration_exact_rational_witness :
    computeDuration (measureDiv 4) (durationNode "4") = .ok ((4 : ℚ) / (4 : ℚ) / 4) :=
  (duration_exact_rational (measureDiv 4) (durationNode "4") _ "4" 4 4 rfl rfl
    parseDecimal_four rfl (by decide)).1

/-- Changing the time cursor does not change the computed duration. -/
theorem computeDuration_change_time (m : Measure) (q : ℚ) (node : XMLNode) :
    computeDuration (change_time m q) node = computeDuration m node := rfl

/-- C6: `handle_forward` passes `+q` and `handle_backup` passes `−q` for
the same duration attribute — exact additive inverses — so a forward
followed by a backup of the same element restores the time cursor. -/
theorem forward_backup_inverse (m : Measure) (node : XMLNode) (q : ℚ)
    (hq : computeDuration m node = .ok q) :
    handle_forward m node = .ok (change_time m q)
    ∧ handle_backup m node = .ok (change_time m (-q))
    ∧ ∀ m1 m2 : Measure, handle_forward m node = .ok m1 →
        handle_backup m1 node = .ok m2 → m2.timeCursor = m.timeCursor := by
  refine ⟨?_, ?_, ?_⟩
  · unfold handle_forward
    rw [hq]
  · unfold handle_backup
    rw [hq]
  · intro m1 m2 h1 h2
    unfold handle_forward at h1
    rw [hq] at h1
    cases h1
    unfold handle_backup at h2
    rw [computeDuration_change_time, hq] at h2
    cases h2
    show m.timeCursor + q + (-q) = m.timeCursor
    ring

/-- C6 witness: forward then backup over duration 4 at divisions 4 restores
the cursor of the concrete measure. -/
theorem forward_backup_inverse_witness :
    handle_forward (measureDiv 4) (durationNode "4") =
      .ok (change_time (measureDiv 4) ((4 : ℚ) / (4 : ℚ) / 4)) :=
  (forward_backup_inverse (measureDiv 4) (durationNode "4") ((4 : ℚ) / (4 : ℚ) / 4)
    (computeDuration_eq (measureDiv 4) (durationNode "4") _ "4" 4 4 rfl rfl
      parseDecimal_four rfl (by decide))).1

/-! ### First-measure layout -/

/-- C7 (amended): when the document's first measure carries a print element,
`handle_print` classifies it NEW_PAGE regardless of attributes — the
new-system flag is set and the position is computed from the page margins
and the required top-system-distance; a first measure without a print
element instead takes the `follow_prev_layout` path, which (with no
predecessor to copy) leaves the measure's layout unchanged, so the
page-margin formulas are not applied there. -/
theorem first_measure_layout (page : Page) (m : Measure) (hfirst : m.prev = none) :
    (∀ node printN : XMLNode, ∀ tsd : ℚ,
        node.find "print" = some printN →
        lookupAttr printN "staff-spacing" = none →
        requiredDecimal printN ["system-layout", "top-system-distance"] = .ok tsd →
        layoutMeasure page m node = .ok { m with
          isNewSystem := true
          y := page.height - page.margins.top - tsd - m.height
          x := (marginsOfNode (findPath printN ["system-layout", "system-margins"])).left
            + page.margins.left })
    ∧ ∀ node : XMLNode, node.find "print" = none →
        layoutMeasure page m node = .ok m := by
  constructor
  · intro node printN tsd hprint hss htsd
    unfold layoutMeasure
    rw [hprint]
    unfold handle_print
    simp only []
    rw [hss]
    dsimp only
    have hpp : printPlacement m printN = .newPage :=
      printPlacement_of_first m printN hfirst
    rw [hpp]
    dsimp only
    rw [htsd]
  · intro node hnop
    unfold layoutMeasure
    rw [hnop]
    dsimp only
    unfold follow_prev_layout
    rw [hfirst]

/-- The print element of the first-measure witness: a required
top-system-distance of 30 and nothing else. -/
def firstPrintNode : XMLNode :=
  .mk "print" [] none
    [.mk "system-layout" [] none [.mk "top-system-distance" [] (some "30") []]]

/-- A measure element holding just the print element above. -/
def firstMeasureNode : XMLNode :=
  .mk "measure" [] none [firstPrintNode]

theorem parseDecimal_thirty : parseDecimal? "30" = some 30 := by
  have h : parseDecimal? "30" = some ((1 : ℚ) * ((30 : ℕ) : ℚ)) := rfl
  rw [h]
  norm_num

theorem requiredDecimal_firstPrint :
    requiredDecimal firstPrintNode ["system-layout", "top-system-distance"] = .ok 30 := by
  have h : requiredDecimal firstPrintNode ["system-layout", "top-system-distance"] =
      (match parseDecimal? "30" with
       | none => .error .valueError
       | some v => .ok v) := rfl
  rw [h, parseDecimal_thirty]

/-- C7 witness: the concrete first measure with a print element is placed by
the NEW_PAGE formulas with its new-system flag set. -/
theorem first_measure_layout_witness :
    layoutMeasure pageW measureW firstMeasureNode = .ok { measureW with
      isNewSystem := true
      y := pageW.height - pageW.margins.top - 30 - measureW.height
      x := (marginsOfNode (findPath firstPrintNode ["system-layout", "system-margins"])).left
        + pageW.margins.left } :=
  (first_measure_layout pageW measureW rfl).1 firstMeasureNode firstPrintNode 30
    rfl rfl requiredDecimal_firstPrint

/-- C7 counterexample: the first measure of a document, given no print
element, keeps its new-system flag false and its initial (0, 0) position —
the page-margin NEW_PAGE formulas are not applied (the page's left margin
alone is 10 ≠ 0). -/
theorem first_measure_no_print_keeps_layout :
    ((layoutMeasure pageW measureW (XMLNode.mk "measure" [] none [])).toOption.map
      (fun mm => (mm.isNewSystem, mm.x, mm.y))) = some (false, 0, 0)
    ∧ pageW.margins.left ≠ 0 :=
  ⟨rfl, by norm_num [pageW]⟩

/-! ### Document loading -/

/-- C8: `_read_musicxml` fails with `FormatError` exactly when no content
was obtained — no suitable container entry, or empty bytes (`not content`
is also true of `b''`) — or the obtained content does not parse as XML; on
success the result is exactly the parse of the obtained bytes, so no
partial result is ever returned. -/
theorem read_musicxml_spec (parseXML : List ℕ → Option XMLNode) (file : FileContent) :
    (read_musicxml parseXML file = .error () ↔
      obtainedContent file = none ∨ obtainedContent file = some []
      ∨ ∃ bs : List ℕ, obtainedContent file = some bs ∧ bs ≠ [] ∧ parseXML bs = none)
    ∧ ∀ doc : XMLNode, read_musicxml parseXML file = .ok doc →
        ∃ bs : List ℕ, obtainedContent file = some bs ∧ bs ≠ [] ∧ parseXML bs = some doc := by
  unfold read_musicxml
  cases hc : obtainedContent file with
  | none => simp
  | some bs =>
    dsimp only
    by_cases hb : bs = []
    · subst hb
      simp
    · rw [if_neg (by simpa [List.isEmpty_iff] using hb)]
      cases hp : parseXML bs with
      | none => simp [hb, hp]
      | some doc => simp [hb, hp]

/-- C8 witness: a container whose only entries are metadata or non-XML
yields no content, hence a `FormatError`. -/
theorem read_musicxml_spec_witness :
    read_musicxml (fun _ => none)
      (FileContent.zipFile [("META-INF/container.xml", [60]), ("score.txt", [60])])
      = .error () :=
  (read_musicxml_spec (fun _ => none)
    (FileContent.zipFile [("META-INF/container.xml", [60]), ("score.txt", [60])])).1.mpr
    (Or.inl rfl)

end PySheetMusic
